import Mathlib

/-!
Shallow embedding of the DialectIOU evaluation harness.

Text is modelled as `List Char` (Python strings are sequences of Unicode code
points, and all indices in the source are character offsets).  Fractional
scores are modelled as `ℚ` (the source uses Python floats; every claim here
concerns values and comparisons that are exact in ℚ).  Python's `set` is
modelled as `Finset` (for word sets) or as `List.dedup` (for the word-dedup
pass in the marker engine, whose iteration order is immaterial because the
collected intervals are sorted before use).  Python `dict` is modelled as an
insertion-ordered association list with update-in-place semantics.
-/

set_option maxRecDepth 4000

/-- Python whitespace characters stripped by `str.strip()`:
space, tab, newline, carriage return, vertical tab, form feed. -/
def pyspace (c : Char) : Bool :=
  c = ' ' || c = '\t' || c = '\n' || c = '\r' || c = Char.ofNat 11 || c = Char.ofNat 12

/-- Python `s.strip()`: drop whitespace from both ends. -/
def pyStrip (l : List Char) : List Char :=
  ((l.dropWhile pyspace).reverse.dropWhile pyspace).reverse

/-- Python `s.split(sep)` for a one-character separator `sep`:
split on every occurrence, keeping empty fields. -/
def splitOnChar (sep : Char) : List Char → List (List Char)
  | [] => [[]]
  | c :: cs =>
    match splitOnChar sep cs with
    | [] => [[]]
    | p :: ps => if c = sep then [] :: p :: ps else (c :: p) :: ps

/-- Python `pat in s` for strings: `pat` occurs as a contiguous substring. -/
def containsSeq (pat l : List Char) : Bool :=
  (List.range (l.length + 1)).any (fun i => pat.isPrefixOf (l.drop i))

/-- Python slice `l[a:b]` for `0 ≤ a, b` (out-of-range indices clamp, and
`a ≥ b` yields the empty string, exactly as `(l.take b).drop a` does). -/
def pySlice (l : List Char) (a b : ℕ) : List Char :=
  (l.take b).drop a

/-- Python `s.replace(c₁, c₂)` for one-character arguments. -/
def replaceChar (c₁ c₂ : Char) (l : List Char) : List Char :=
  l.map (fun c => if c = c₁ then c₂ else c)

/-- All positions `i ≤ |text|` at which `w` matches literally
(`re.escape` makes the pattern a literal string). -/
def matchPositions (w text : List Char) : List ℕ :=
  (List.range (text.length + 1)).filter (fun i => w.isPrefixOf (text.drop i))

/-- Leftmost literal match of `w` in `text` at or after position `pos`
(one step of `re.finditer`'s scan). -/
def findFrom (w text : List Char) (pos : ℕ) : Option ℕ :=
  (matchPositions w text).find? (fun i => pos ≤ i)

/-- The scanning loop of `re.finditer(re.escape(w), text)`.  After a match at
`i` the scan resumes at `i + |w|`, or at `i + 1` for a zero-width match —
`max (i + |w|) (i + 1)` covers both cases.  The scan position strictly
increases and never exceeds `|text| + 1`, so fuel `|text| + 1` (supplied by
`finditer`) never runs out; it only makes the recursion structural. -/
def finditerGo (w text : List Char) : ℕ → ℕ → List (ℕ × ℕ)
  | _, 0 => []
  | pos, fuel + 1 =>
    match findFrom w text pos with
    | none => []
    | some i => (i, i + w.length) :: finditerGo w text (max (i + w.length) (i + 1)) fuel

/-- Python `[(m.start(), m.end()) for m in re.finditer(re.escape(w), text)]`:
all non-overlapping literal occurrences of `w` in `text`, leftmost first. -/
def finditer (w text : List Char) : List (ℕ × ℕ) :=
  finditerGo w text 0 (text.length + 1)

/-- The interval-collection pass shared by `mark_words_in_text`
(src/utils/text_processing.py) and the inlined copy in
`process_line_to_ground_truth` (src/dialect_iou.py):
`for word in set(dialect_words): for match in re.finditer(...)`.
Python's `set` iteration order is unspecified; `List.dedup` fixes one order
of the distinct words, which is immaterial downstream because the result is
sorted before it is used. -/
def collectIntervals (text : List Char) (words : List (List Char)) : List (ℕ × ℕ) :=
  words.dedup.flatMap (fun w => finditer w text)

/-- Ascending order on `(start, end)` pairs, as Python's tuple `sort()`. -/
def ivLe (a b : ℕ × ℕ) : Prop :=
  a.1 < b.1 ∨ (a.1 = b.1 ∧ a.2 ≤ b.2)

instance : DecidableRel ivLe := fun a b => by
  unfold ivLe; infer_instance

instance : IsTotal (ℕ × ℕ) ivLe :=
  ⟨fun a b => by unfold ivLe; omega⟩

instance : IsTrans (ℕ × ℕ) ivLe :=
  ⟨fun a b c hab hbc => by unfold ivLe at *; omega⟩

/-- `intervals_to_mark.sort()`: ascending by `(start, end)`.  The collected
intervals are pairwise distinct (an interval determines the matched word), so
any correct ascending sort yields the same list; insertion sort is used here
because it evaluates by `rfl`. -/
def sortIntervals (l : List (ℕ × ℕ)) : List (ℕ × ℕ) :=
  List.insertionSort ivLe l

/-- One piece of the output assembled by the marking loop: a verbatim span of
the original text, an inserted left bracket, or an inserted right bracket.
The loop appends `text[last:start]`, `left + text[start:end] + right` per
interval, then the trailing `text[last:]`; tagging the inserted bracket
strings keeps them identifiable in the assembled output. -/
inductive MarkPiece where
  | raw (s : List Char)
  | lbr
  | rbr
deriving DecidableEq

/-- The splicing loop of the marker engine: walk the sorted interval list,
copying unmarked spans verbatim and wrapping each matched span. -/
def splicePieces (text : List Char) : ℕ → List (ℕ × ℕ) → List MarkPiece
  | last, [] => [.raw (pySlice text last text.length)]
  | last, (s, e) :: rest =>
    .raw (pySlice text last s) :: .lbr :: .raw (pySlice text s e) :: .rbr ::
      splicePieces text e rest

/-- Rendering a piece with a concrete bracket pair. -/
def renderPiece (left right : List Char) : MarkPiece → List Char
  | .raw s => s
  | .lbr => left
  | .rbr => right

/-- Delete every inserted bracket from an assembled piece list, keeping the
verbatim spans. -/
def eraseInserted (ps : List MarkPiece) : List Char :=
  ps.flatMap (fun p => match p with | .raw s => s | .lbr => [] | .rbr => [])

namespace TextProc

/-- `mark_words_in_text` (src/utils/text_processing.py, lines 4–38).  The
source's default bracket pair is `【`/`】`; callers that want another pair
pass it explicitly. -/
def mark_words_in_text (transcription : List Char) (dialect_words : List (List Char))
    (left_bracket right_bracket : List Char) : List Char :=
  if dialect_words = [] then transcription
  else
    let intervals_to_mark := collectIntervals transcription dialect_words
    if intervals_to_mark = [] then transcription
    else
      (splicePieces transcription 0 (sortIntervals intervals_to_mark)).flatMap
        (renderPiece left_bracket right_bracket)

/-- `re.sub(r'[【】{}]', '', s)`: strip annotation bracket characters. -/
def cleanDialectField (s : List Char) : List Char :=
  s.filter (fun c => !(c = '【' || c = '】' || c = '\x7b' || c = '\x7d'))

/-- `process_line_to_ground_truth` (src/utils/text_processing.py, lines
40–58).  A malformed line (field count ≠ 3) yields the sentinel
`("", "", "")`; the accompanying warning print is not modelled.  In
word-comparison mode the cleaned raw field is returned; otherwise the
transcription is marked via `mark_words_in_text` with its default `【】`
bracket pair. -/
def process_line_to_ground_truth (line : List Char) (use_word_comparison : Bool) :
    List Char × List Char × List Char :=
  match splitOnChar '\t' (pyStrip line) with
  | [filename, transcription, dialect_words_raw] =>
    if use_word_comparison then
      (filename, transcription, cleanDialectField dialect_words_raw)
    else
      let dialect_words_cleaned := cleanDialectField dialect_words_raw
      let dialect_words := (splitOnChar ',' dialect_words_cleaned).filter (fun w => w ≠ [])
      (filename, mark_words_in_text transcription dialect_words ['【'] ['】'], [])
  | _ => ([], [], [])

end TextProc

namespace DI

/-- `process_line_to_ground_truth` (src/dialect_iou.py, lines 5–65).  The
marking loop is inlined in this source file (with the literal bracket pair
`<`/`>`); the embedding mirrors that inlined loop piece by piece.  A
malformed line returns `(None, None)`, modelled as `none`. -/
def process_line_to_ground_truth (line : List Char) : Option (List Char × List Char) :=
  match splitOnChar '\t' (pyStrip line) with
  | [filename, transcription, dialect_words_raw] =>
    let dialect_words_cleaned := TextProc.cleanDialectField dialect_words_raw
    let dialect_words := (splitOnChar ',' dialect_words_cleaned).filter (fun w => w ≠ [])
    let intervals_to_mark := collectIntervals transcription dialect_words
    if intervals_to_mark = [] then some (filename, transcription)
    else
      some (filename,
        (splicePieces transcription 0 (sortIntervals intervals_to_mark)).flatMap
          (renderPiece ['<'] ['>']))
  | _ => none

end DI

namespace TextProc

/-- One step of the linear scan in `_extract_char_indices`
(src/utils/text_processing.py, lines 60–73; an identical copy lives in
src/dialect_iou.py, lines 68–96): `<` raises the in-markup flag, `>` lowers
it, and any other character is counted at the current plain-text position,
which only non-bracket characters advance. -/
def extractStep : ℕ × Bool × Finset ℕ → Char → ℕ × Bool × Finset ℕ
  | (plain_text_pos, in_markup, indices), c =>
    if c = '<' then (plain_text_pos, true, indices)
    else if c = '>' then (plain_text_pos, false, indices)
    else (plain_text_pos + 1, in_markup,
      if in_markup then insert plain_text_pos indices else indices)

/-- `_extract_char_indices(text_with_markup)`: the set of plain-text
character indices covered by `<...>` spans. -/
def extract_char_indices (text_with_markup : List Char) : Finset ℕ :=
  (text_with_markup.foldl extractStep (0, false, ∅)).2.2

/-- `calculate_text_iou` (src/utils/text_processing.py, lines 75–82; an
identical copy lives in src/dialect_iou.py, lines 98–128). -/
def calculate_text_iou (gt_text hyp_text : List Char) : ℚ :=
  let gt_indices := extract_char_indices gt_text
  let hyp_indices := extract_char_indices hyp_text
  let intersection_size := (gt_indices ∩ hyp_indices).card
  let union_size := (gt_indices ∪ hyp_indices).card
  if union_size = 0 then 1
  else (intersection_size : ℚ) / (union_size : ℚ)

/-- The ground-truth word set of `calculate_word_metrics`:
`set(word.strip() for word in gt_words.replace(',','，').split('，') if word.strip())`.
Note the ASCII-comma replacement happens on this argument only. -/
def gtWordSet (gt_words : List Char) : Finset (List Char) :=
  (((splitOnChar '，' (replaceChar ',' '，' gt_words)).map pyStrip).filter
    (fun w => w ≠ [])).toFinset

/-- The hypothesis word set of `calculate_word_metrics`:
`set(word.strip() for word in hyp_words.split('，') if word.strip())` —
split on the fullwidth comma only, with no replacement. -/
def hypWordSet (hyp_words : List Char) : Finset (List Char) :=
  (((splitOnChar '，' hyp_words).map pyStrip).filter (fun w => w ≠ [])).toFinset

/-- `calculate_word_metrics` (src/utils/text_processing.py, lines 84–120),
returning `(recall, precision, f1)`. -/
def calculate_word_metrics (gt_words hyp_words : List Char) : ℚ × ℚ × ℚ :=
  let gt_word_set := gtWordSet gt_words
  let hyp_word_set := hypWordSet hyp_words
  let intersection := gt_word_set ∩ hyp_word_set
  let recall_v : ℚ :=
    if gt_word_set.card = 0 then (if hyp_word_set.card = 0 then 1 else 0)
    else (intersection.card : ℚ) / (gt_word_set.card : ℚ)
  let precision_v : ℚ :=
    if hyp_word_set.card = 0 then (if gt_word_set.card = 0 then 1 else 0)
    else (intersection.card : ℚ) / (hyp_word_set.card : ℚ)
  let f1_v : ℚ :=
    if precision_v + recall_v = 0 then 0
    else 2 * precision_v * recall_v / (precision_v + recall_v)
  (recall_v, precision_v, f1_v)

end TextProc

/-- Evaluate `calculate_word_metrics` from the three set cardinalities. -/
theorem TextProc.calculate_word_metrics_eval (gt_words hyp_words : List Char)
    (g h i : ℕ) (hg : (TextProc.gtWordSet gt_words).card = g)
    (hh : (TextProc.hypWordSet hyp_words).card = h)
    (hi : ((TextProc.gtWordSet gt_words) ∩ (TextProc.hypWordSet hyp_words)).card = i) :
    TextProc.calculate_word_metrics gt_words hyp_words =
      (if g = 0 then (if h = 0 then (1:ℚ) else 0) else (i:ℚ)/(g:ℚ),
       if h = 0 then (if g = 0 then (1:ℚ) else 0) else (i:ℚ)/(h:ℚ),
       let p : ℚ := if h = 0 then (if g = 0 then (1:ℚ) else 0) else (i:ℚ)/(h:ℚ)
       let r : ℚ := if g = 0 then (if h = 0 then (1:ℚ) else 0) else (i:ℚ)/(g:ℚ)
       if p + r = 0 then 0 else 2 * p * r / (p + r)) := by
  simp only [TextProc.calculate_word_metrics, hg, hh, hi]

/-- Evaluate `calculate_text_iou` from the two set cardinalities. -/
theorem TextProc.calculate_text_iou_eval (gt_text hyp_text : List Char) (i u : ℕ)
    (hi : ((TextProc.extract_char_indices gt_text) ∩
      (TextProc.extract_char_indices hyp_text)).card = i)
    (hu : ((TextProc.extract_char_indices gt_text) ∪
      (TextProc.extract_char_indices hyp_text)).card = u) :
    TextProc.calculate_text_iou gt_text hyp_text =
      (if u = 0 then 1 else (i:ℚ)/(u:ℚ)) := by
  simp only [TextProc.calculate_text_iou, hi, hu]

/-- `s.split(" : ")` for the three-character separator used by the checkpoint
log format: non-overlapping occurrences, scanned left to right. -/
def splitSpColonSp : List Char → List (List Char)
  | [] => [[]]
  | ' ' :: ':' :: ' ' :: rest => [] :: splitSpColonSp rest
  | c :: cs =>
    match splitSpColonSp cs with
    | [] => [[c]]
    | p :: ps => (c :: p) :: ps

/-- `l.all Char.isDigit` for decimal digit runs. -/
def allDigits (l : List Char) : Bool := l.all (fun c => c.isDigit)

/-- Decimal value of a digit run. -/
def digitsToNat (l : List Char) : ℕ := l.foldl (fun a c => a * 10 + (c.toNat - 48)) 0

/-- Python `float(s)` on an already-stripped string, modelled for plain signed
decimal literals (optional sign, digits, optional fractional part; `"1."` and
`".5"` are accepted, the empty string and non-digit text are rejected).
Exponent, `inf` and `nan` forms accepted by Python are not modelled; no claim
depends on them, and the parser is only used pointwise on log lines. -/
def pyFloat (l : List Char) : Option ℚ :=
  let signBody : ℚ × List Char :=
    match l with
    | '-' :: r => (-1, r)
    | '+' :: r => (1, r)
    | _ => (1, l)
  match splitOnChar '.' signBody.2 with
  | [ip] =>
    if ip ≠ [] && allDigits ip then some (signBody.1 * (digitsToNat ip : ℚ)) else none
  | [ip, fp] =>
    if (ip ++ fp) ≠ [] && allDigits ip && allDigits fp then
      some (signBody.1 * ((digitsToNat ip : ℚ) + (digitsToNat fp : ℚ) / (10 : ℚ) ^ fp.length))
    else none
  | _ => none

/-- Python `dict` insertion with update-in-place semantics:
`d[k] = v` replaces the value of an existing key in place, otherwise appends. -/
def upsert (m : List (List Char × ℚ)) (k : List Char) (v : ℚ) : List (List Char × ℚ) :=
  if m.any (fun kv => kv.1 = k) then m.map (fun kv => if kv.1 = k then (k, v) else kv)
  else m ++ [(k, v)]

namespace Ckpt

/-- The literal marker searched for by `parse_log_file`
(src/eval_w_checkpoint.py, line 85): `"rolling_recall_avg :" in line`. -/
def markerTok : List Char := "rolling_recall_avg :".toList

/-- The prefix tested by the collection walk: `current_line.startswith("rolling_")`. -/
def rollingPfx : List Char := "rolling_".toList

/-- The separator of metric lines: `" : " in current_line` / `split(" : ")`. -/
def sepTok : List Char := " : ".toList

/-- The inner walk of `parse_log_file` (src/eval_w_checkpoint.py, lines
88–104): for each line from the start index on, strip it; if it starts with
`rolling_` and contains `" : "`, split on `" : "` and, when that yields
exactly two parts whose second parses as a float, store the pair (a parse
failure is silently skipped); a line starting with `rolling_` but without the
full shape is skipped with `continue`; any other line breaks the walk. -/
def rollingWalk : List (List Char) → List (List Char × ℚ) → List (List Char × ℚ)
  | [], m => m
  | line :: rest, m =>
    let current_line := pyStrip line
    if rollingPfx.isPrefixOf current_line && containsSeq sepTok current_line then
      match splitSpColonSp current_line with
      | [p0, p1] =>
        match pyFloat (pyStrip p1) with
        | some v => rollingWalk rest (upsert m (pyStrip p0) v)
        | none => rollingWalk rest m
      | _ => rollingWalk rest m
    else if rollingPfx.isPrefixOf current_line then rollingWalk rest m
    else m

/-- The `last_rolling_values` component of `parse_log_file`
(src/eval_w_checkpoint.py, lines 83–105): scan the lines in reverse for the
last line containing the literal `"rolling_recall_avg :"`; on a hit, take
`lines.index(line)` — the index of the **first** line whose content equals
the found line — and run the collection walk from there.  (The
`last_processed_file` and `processed_count` components of `parse_log_file`
are independent of this one and are not needed by the claims about
`rolling_values`.) -/
def parse_log_file_rolling (lines : List (List Char)) : List (List Char × ℚ) :=
  match lines.reverse.find? (fun l => containsSeq markerTok l) with
  | none => []
  | some line => rollingWalk (lines.drop (lines.indexOf line)) []

/-- A marker token of shape `rolling_*_avg :` occurs in the line: some
occurrence of `rolling_` is followed (contiguously, after an arbitrary
in-between segment) by an occurrence of `_avg :`.  This formalises the
claim's wildcard marker, of which the code's literal `rolling_recall_avg :`
is one instance. -/
def markerShape (l : List Char) : Bool :=
  (List.range (l.length + 1)).any (fun i =>
    rollingPfx.isPrefixOf (l.drop i) &&
    (List.range (l.length + 1)).any (fun j =>
      decide (i + 8 ≤ j) && ("_avg :".toList).isPrefixOf (l.drop j)))

/-- A line of shape `rolling_<name> : <float>` parsed into its key/value
pair: the stripped line starts with `rolling_`, contains `" : "`, splits on
`" : "` into exactly two parts, and the second part parses as a float. -/
def rollingKV (line : List Char) : Option (List Char × ℚ) :=
  let cl := pyStrip line
  if rollingPfx.isPrefixOf cl && containsSeq sepTok cl then
    match splitSpColonSp cl with
    | [p0, p1] => (pyFloat (pyStrip p1)).map (fun v => (pyStrip p0, v))
    | _ => none
  else none

/-- `rolling_values` as the claim states it (claim C4, from the spec):
locate the last line containing a marker token of shape `rolling_*_avg :`
scanning in reverse, then walk forward **from that line**, collecting every
line of shape `rolling_<name> : <float>` into the mapping and stopping at
the first line that does not match that shape. -/
def claim_rolling_values (lines : List (List Char)) : List (List Char × ℚ) :=
  match ((List.range lines.length).filter (fun i => markerShape (lines.getD i []))).getLast? with
  | none => []
  | some idx =>
    (((lines.drop idx).takeWhile (fun l => (rollingKV l).isSome)).filterMap rollingKV).foldl
      (fun m kv => upsert m kv.1 kv.2) []

/-- `rolling_values` as the amended claim states it: the marker is the
literal token `rolling_recall_avg :`; the walk starts from the first line
whose content equals the last marker line; it keeps going over every
stripped line starting with `rolling_`, collecting those of full shape
`rolling_<name> : <float>` and skipping the rest, and stops at the first
stripped line that does not start with `rolling_`. -/
def amended_rolling_values (lines : List (List Char)) : List (List Char × ℚ) :=
  match (lines.filter (fun l => containsSeq markerTok l)).getLast? with
  | none => []
  | some line =>
    (((lines.drop (lines.indexOf line)).takeWhile
        (fun l => rollingPfx.isPrefixOf (pyStrip l))).filterMap rollingKV).foldl
      (fun m kv => upsert m kv.1 kv.2) []

/-- The record-selection behaviour of `run_evaluation_with_checkpoint`
(src/eval_w_checkpoint.py, lines 245–289), modelled over the list of
filenames parsed from the annotation lines (a blank or malformed line
yields an empty filename and is skipped by the first guard, mirroring
`if filename is None or not filename: continue`).  `audio_exists` abstracts
`os.path.exists(full_audio_path)`; a record is *scored* (appears in the
result) exactly when the loop reaches the model call for it.  The
`start_processing` flag starts out `False`: while it is down, a record is
skipped unless `last` is `None` (start at once, processing this record) or
its filename equals `last` (raise the flag but `continue` past this
record). -/
def scored_records (audio_exists : List Char → Bool) :
    List (List Char) → Option (List Char) → Bool → List (List Char)
  | [], _, _ => []
  | f :: fs, last, started =>
    if f = [] then scored_records audio_exists fs last started
    else if started then
      (if audio_exists f then f :: scored_records audio_exists fs last true
       else scored_records audio_exists fs last true)
    else
      match last with
      | none =>
        if audio_exists f then f :: scored_records audio_exists fs none true
        else scored_records audio_exists fs none true
      | some x =>
        if f = x then scored_records audio_exists fs last true
        else scored_records audio_exists fs last false

end Ckpt

namespace Qwen

/-- Outcomes of the external effects inside `QwenAudioModel.process`
(src/models/qwen_model.py, lines 32–101): whether the audio file exists,
and the results of the `librosa.load` call and the two generation rounds —
each of which may raise (`Except.error`), since the method's `try`/`except`
is commented out in the source. -/
structure Env where
  audio_exists : Bool
  librosa_load : Except (List Char) Unit
  asr_generate : Except (List Char) (List Char)
  extract_generate : Except (List Char) (List Char)

/-- Python `re.split(r"[,，]", s)`: split on every single ASCII or fullwidth
comma. -/
def re_split_commas : List Char → List (List Char)
  | [] => [[]]
  | c :: cs =>
    match re_split_commas cs with
    | [] => [[]]
    | p :: ps => if c = ',' || c = '，' then [] :: p :: ps else (c :: p) :: ps

/-- `QwenAudioModel.process` (src/models/qwen_model.py, lines 32–101).  The
missing-audio branch returns `"[错误: 音频文件未找到] " + transcription`.
All later external calls run with **no** exception handler (the
`try`/`except Exception` wrapper at lines 39 and 99–101 is commented out, so
the trailing `return transcription` is unreachable): an error from any of
them propagates out of `process`, modelled by the `Except` bind.  On
success: an empty ASR text falls back to the transcription; the
`asr_text.split("'")[1]` extraction falls back to the whole text when there
is no second fragment (the `except` around it catches the `IndexError`);
the extracted word list is comma-split, stripped, filtered, and marked into
the ASR text with `mark_words_in_text`'s default `【】` brackets. -/
def process (env : Env) (transcription : List Char) : Except (List Char) (List Char) :=
  if !env.audio_exists then .ok ("[错误: 音频文件未找到] ".toList ++ transcription)
  else do
    let _ ← env.librosa_load
    let asr_text_raw ← env.asr_generate
    let asr_text := if asr_text_raw = [] then transcription else asr_text_raw
    let asr_text_ :=
      match splitOnChar (Char.ofNat 39) asr_text with
      | _ :: second :: _ => second
      | _ => asr_text
    let dialect_words_text ← env.extract_generate
    let dialect_words :=
      ((re_split_commas dialect_words_text).map pyStrip).filter (fun w => w ≠ [])
    .ok (TextProc.mark_words_in_text asr_text_ dialect_words ['【'] ['】'])

end Qwen

namespace Para

/-- Outcome of the remote LLM call inside `ParaformerLlmApiModel._call_llm_api`
(src/models/paraformer_llm_api_model.py, lines 120–145): a successful
response body content, a well-formed response without the expected
`choices[0].message` shape (carrying `response.text`), a
`requests.exceptions.RequestException`, or any other exception — the last
three are all caught inside `_call_llm_api` and turned into placeholder
strings. -/
inductive LlmOutcome where
  | content (s : List Char)
  | badFormat (response_text : List Char)
  | requestFail (e : List Char)
  | otherFail (e : List Char)

/-- Outcomes of the external effects inside `ParaformerLlmApiModel.process`
(src/models/paraformer_llm_api_model.py, lines 99–173). -/
structure Env where
  model_loaded : Bool
  input_source_paraformer : Bool
  paraformer_result : Except (List Char) (List Char)
  llm_outcome : LlmOutcome

/-- `_run_paraformer` (lines 99–117): every failure is caught and becomes a
placeholder string, never an exception. -/
def run_paraformer (env : Env) : List Char :=
  if !env.model_loaded then "[paraformer失败: 模型未加载]".toList
  else
    match env.paraformer_result with
    | .ok t =>
      let t' := t.filter (fun c => c ≠ ' ')
      if t' = [] then "[paraformer失败: 未返回文本]".toList else t'
    | .error e => "[paraformer失败: ".toList ++ e ++ "]".toList

/-- `_call_llm_api` (lines 120–145): every failure is caught and becomes a
placeholder string, never an exception; a nonempty content has its newlines
removed, an empty one becomes a placeholder. -/
def call_llm_api (o : LlmOutcome) : List Char :=
  match o with
  | .content s =>
    let fused := s.filter (fun c => c ≠ '\n')
    if fused = [] then "[LLM返回空内容]".toList else fused
  | .badFormat t => "[LLM返回格式错误: ".toList ++ t ++ "]".toList
  | .requestFail e => "[LLM请求失败: ".toList ++ e ++ "]".toList
  | .otherFail e => "[LLM未知错误: ".toList ++ e ++ "]".toList

/-- `ParaformerLlmApiModel.process` (lines 147–173).  The LLM's (or
placeholder's) text is comma-split into words which are then marked in the
LLM input text (`text_for_llm`) — note that `final_text` is **reassigned**
to the marked `text_for_llm` at line 171, so whatever `_call_llm_api`
returned survives only through the word list.  Every failure path is caught
upstream, so the function is total: it never raises. -/
def process (env : Env) (transcription : List Char) : List Char :=
  let text_for_llm :=
    if env.input_source_paraformer then run_paraformer env else transcription
  let final_text := call_llm_api env.llm_outcome
  if final_text = [] then final_text
  else
    let dialect_words := ((Qwen.re_split_commas final_text).map pyStrip).filter (fun w => w ≠ [])
    TextProc.mark_words_in_text text_for_llm dialect_words ['【'] ['】']

end Para

/-- Disjointness of half-open index intervals, in the ordered-segment sense:
one ends at or before the other starts. -/
def ivDisj (a b : ℕ × ℕ) : Prop := a.2 ≤ b.1 ∨ b.2 ≤ a.1

instance : DecidableRel ivDisj := fun a b => by unfold ivDisj; infer_instance

/-- The marker engine's pieces, separated from its bracket rendering:
`mark_words_in_text text words l r = (mark_pieces text words).flatMap
(renderPiece l r)` (see `mark_words_in_text_eq_render`). -/
def TextProc.mark_pieces (transcription : List Char) (dialect_words : List (List Char)) :
    List MarkPiece :=
  if dialect_words = [] then [.raw transcription]
  else
    let intervals_to_mark := collectIntervals transcription dialect_words
    if intervals_to_mark = [] then [.raw transcription]
    else splicePieces transcription 0 (sortIntervals intervals_to_mark)

theorem mark_words_in_text_eq_render (text : List Char) (words : List (List Char))
    (left right : List Char) :
    TextProc.mark_words_in_text text words left right =
      (TextProc.mark_pieces text words).flatMap (renderPiece left right) := by
  unfold TextProc.mark_words_in_text TextProc.mark_pieces
  by_cases h1 : words = []
  · simp [h1, renderPiece]
  · simp only [h1, if_false]
    by_cases h2 : collectIntervals text words = []
    · simp [h2, renderPiece]
    · simp [h2]

theorem find?_eq_head?_filter {α : Type} (p : α → Bool) (l : List α) :
    l.find? p = (l.filter p).head? := by
  induction l with
  | nil => rfl
  | cons a l ih =>
    cases h : p a with
    | true =>
      rw [List.find?_cons_of_pos _ h, List.filter_cons_of_pos h]
      rfl
    | false =>
      rw [List.find?_cons_of_neg _ (by simp [h]), List.filter_cons_of_neg (by simp [h])]
      exact ih

theorem find?_reverse_eq_getLast?_filter {α : Type} (p : α → Bool) (l : List α) :
    l.reverse.find? p = (l.filter p).getLast? := by
  rw [find?_eq_head?_filter, List.filter_reverse, List.head?_reverse]

theorem rollingWalk_cons (line : List Char) (rest : List (List Char))
    (m : List (List Char × ℚ)) :
    Ckpt.rollingWalk (line :: rest) m =
      if Ckpt.rollingPfx.isPrefixOf (pyStrip line) then
        Ckpt.rollingWalk rest
          (match Ckpt.rollingKV line with
           | some kv => upsert m kv.1 kv.2
           | none => m)
      else m := by
  by_cases h1 : Ckpt.rollingPfx.isPrefixOf (pyStrip line)
  · by_cases h2 : containsSeq Ckpt.sepTok (pyStrip line)
    · rcases hs : splitSpColonSp (pyStrip line) with _ | ⟨p0, rest0⟩
      · simp [Ckpt.rollingWalk, Ckpt.rollingKV, h1, h2, hs]
      · rcases rest0 with _ | ⟨p1, rest1⟩
        · simp [Ckpt.rollingWalk, Ckpt.rollingKV, h1, h2, hs]
        · rcases rest1 with _ | ⟨q, qs⟩
          · rcases hf : pyFloat (pyStrip p1) with _ | v
            · simp [Ckpt.rollingWalk, Ckpt.rollingKV, h1, h2, hs, hf]
            · simp [Ckpt.rollingWalk, Ckpt.rollingKV, h1, h2, hs, hf]
          · simp [Ckpt.rollingWalk, Ckpt.rollingKV, h1, h2, hs]
    · simp [Ckpt.rollingWalk, Ckpt.rollingKV, h1, h2]
  · simp [Ckpt.rollingWalk, Ckpt.rollingKV, h1]

theorem rollingWalk_eq :
    ∀ (ls : List (List Char)) (m : List (List Char × ℚ)),
      Ckpt.rollingWalk ls m =
        (((ls.takeWhile (fun l => Ckpt.rollingPfx.isPrefixOf (pyStrip l))).filterMap
            Ckpt.rollingKV).foldl (fun acc kv => upsert acc kv.1 kv.2) m)
  | [], m => rfl
  | line :: rest, m => by
    rw [rollingWalk_cons]
    by_cases h1 : Ckpt.rollingPfx.isPrefixOf (pyStrip line)
    · rw [if_pos h1, List.takeWhile_cons_of_pos (by simpa using h1)]
      rcases hkv : Ckpt.rollingKV line with _ | kv
      · simp [hkv, rollingWalk_eq rest m]
      · simp [hkv, rollingWalk_eq rest (upsert m kv.1 kv.2)]
    · rw [if_neg h1, List.takeWhile_cons_of_neg (by simpa using h1)]
      simp

theorem finditerGo_bounds (w text : List Char) :
    ∀ (fuel pos : ℕ) (p : ℕ × ℕ), p ∈ finditerGo w text pos fuel → p.1 ≤ p.2
  | 0, _, _, h => by simp [finditerGo] at h
  | fuel + 1, pos, p, h => by
    simp only [finditerGo] at h
    rcases hf : findFrom w text pos with _ | i <;> rw [hf] at h
    · simp at h
    · rcases List.mem_cons.mp h with h' | h'
      · subst h'; simp
      · exact finditerGo_bounds w text fuel _ p h'

theorem collectIntervals_bounds (text : List Char) (words : List (List Char))
    (p : ℕ × ℕ) (hp : p ∈ collectIntervals text words) : p.1 ≤ p.2 := by
  unfold collectIntervals at hp
  rcases List.mem_flatMap.mp hp with ⟨w, _, hw⟩
  exact finditerGo_bounds w text _ _ p hw

theorem finditer_eq_nil_of_not_contains (w text : List Char)
    (h : containsSeq w text = false) : finditer w text = [] := by
  have hmp : matchPositions w text = [] := by
    unfold containsSeq at h
    unfold matchPositions
    rw [List.filter_eq_nil_iff]
    intro i hi hc
    have htrue : ((List.range (text.length + 1)).any
        fun i => w.isPrefixOf (List.drop i text)) = true :=
      List.any_eq_true.mpr ⟨i, hi, hc⟩
    rw [h] at htrue
    exact Bool.noConfusion htrue
  unfold finditer
  rcases text.length + 1 with _ | n
  · rfl
  · simp [finditerGo, findFrom, hmp]

theorem collectIntervals_eq_nil (text : List Char) (words : List (List Char))
    (h : ∀ w ∈ words, containsSeq w text = false) :
    collectIntervals text words = [] := by
  unfold collectIntervals
  rw [List.flatMap_eq_nil_iff]
  intro w hw
  exact finditer_eq_nil_of_not_contains w text (h w (List.mem_dedup.mp hw))

theorem mark_words_in_text_no_match (text : List Char) (words : List (List Char))
    (left right : List Char) (h : ∀ w ∈ words, containsSeq w text = false) :
    TextProc.mark_words_in_text text words left right = text := by
  unfold TextProc.mark_words_in_text
  by_cases hw : words = []
  · simp [hw]
  · simp [hw, collectIntervals_eq_nil text words h]

theorem take_drop_glue {α : Type} (l : List α) (a b : ℕ) (hab : a ≤ b) :
    (l.take b).drop a ++ l.drop b = l.drop a := by
  conv_rhs => rw [← List.take_append_drop b l, List.drop_append_eq_append_drop]
  by_cases hc : a ≤ (l.take b).length
  · have : a - (l.take b).length = 0 := by omega
    rw [this, List.drop_zero]
  · have hlen : (l.take b).length = min b l.length := List.length_take b l
    have hb : l.length < b := by omega
    have hnil : l.drop b = [] := List.drop_eq_nil_of_le (by omega)
    simp [hnil]

theorem eraseInserted_splicePieces (text : List Char) :
    ∀ (ivs : List (ℕ × ℕ)) (last : ℕ),
      (∀ p ∈ ivs, p.1 ≤ p.2) →
      List.Chain' (fun a b : ℕ × ℕ => a.2 ≤ b.1) ivs →
      (∀ p ∈ ivs.head?, last ≤ p.1) →
      eraseInserted (splicePieces text last ivs) = text.drop last
  | [], last, _, _, _ => by
    simp [splicePieces, eraseInserted, pySlice, List.take_length]
  | (s, e) :: rest, last, hb, hch, hhd => by
    have hse : s ≤ e := hb (s, e) (List.mem_cons_self _ _)
    have hls : last ≤ s := by simpa using hhd (s, e) (by simp)
    rcases List.chain'_cons'.mp hch with ⟨hhd', hch'⟩
    have ih := eraseInserted_splicePieces text rest e
      (fun p hp => hb p (List.mem_cons_of_mem _ hp)) hch'
      (fun p hp => hhd' p hp)
    simp only [splicePieces, eraseInserted, List.flatMap_cons] at *
    rw [ih]
    show pySlice text last s ++ (pySlice text s e ++ text.drop e) = text.drop last
    unfold pySlice
    rw [take_drop_glue text s e hse, take_drop_glue text last s hls]

theorem sortIntervals_chain (ivs : List (ℕ × ℕ))
    (hb : ∀ p ∈ ivs, p.1 ≤ p.2) (hd : ivs.Pairwise ivDisj) :
    List.Chain' (fun a b : ℕ × ℕ => a.2 ≤ b.1) (sortIntervals ivs) := by
  have hperm := List.perm_insertionSort ivLe ivs
  have hb' : ∀ p ∈ sortIntervals ivs, p.1 ≤ p.2 := fun p hp => hb p (hperm.subset hp)
  have hd' : (sortIntervals ivs).Pairwise ivDisj :=
    (hperm.pairwise_iff (fun h => h.symm)).mpr hd
  have hs : (sortIntervals ivs).Pairwise ivLe := List.sorted_insertionSort ivLe ivs
  have hps : (sortIntervals ivs).Pairwise (fun a b => ivLe a b ∧ ivDisj a b) := hs.and hd'
  refine List.Pairwise.chain' (List.Pairwise.imp_of_mem ?_ hps)
  intro a b ha hb'' hab
  have h1 := hb' a ha
  have h2 := hb' b hb''
  rcases hab with ⟨hle, hdj⟩
  unfold ivLe at hle
  unfold ivDisj at hdj
  omega

theorem scored_records_started (ae : List Char → Bool) :
    ∀ (fs : List (List Char)) (last : Option (List Char)), [] ∉ fs →
      Ckpt.scored_records ae fs last true = fs.filter ae
  | [], _, _ => rfl
  | f :: fs, last, hmem => by
    have hf : f ≠ [] := fun h => hmem (h ▸ List.mem_cons_self _ _)
    have hfs : [] ∉ fs := fun h => hmem (List.mem_cons_of_mem _ h)
    by_cases hae : ae f <;>
      simp [Ckpt.scored_records, hf, hae, scored_records_started ae fs last hfs]

theorem scored_records_none (ae : List Char → Bool) (records : List (List Char))
    (h : [] ∉ records) :
    Ckpt.scored_records ae records none false = records.filter ae := by
  cases records with
  | nil => rfl
  | cons f fs =>
    have hf : f ≠ [] := fun hq => h (hq ▸ List.mem_cons_self _ _)
    have hfs : [] ∉ fs := fun hq => h (List.mem_cons_of_mem _ hq)
    by_cases hae : ae f <;>
      simp [Ckpt.scored_records, hf, hae, scored_records_started ae fs none hfs]

theorem scored_records_resume (ae : List Char → Bool) :
    ∀ (pre : List (List Char)) (x : List Char) (post : List (List Char)),
      x ∉ pre → [] ∉ (pre ++ x :: post) →
      Ckpt.scored_records ae (pre ++ x :: post) (some x) false = post.filter ae
  | [], x, post, _, hmem => by
    have hx : x ≠ [] := fun h => hmem (by simp [h])
    have hpost : [] ∉ post := fun h => hmem (by simp [h])
    simp [Ckpt.scored_records, hx, scored_records_started ae post (some x) hpost]
  | p :: pre, x, post, hnotin, hmem => by
    have hp : p ≠ [] := fun h => hmem (by simp [h])
    have hpx : p ≠ x := fun h => hnotin (h ▸ List.mem_cons_self _ _)
    have hnotin' : x ∉ pre := fun h => hnotin (List.mem_cons_of_mem _ h)
    have hmem' : [] ∉ (pre ++ x :: post) := fun h => hmem (by simp at h ⊢; tauto)
    simp [Ckpt.scored_records, hp, hpx, scored_records_resume ae pre x post hnotin' hmem']

/-- The inlined marking code of src/dialect_iou.py agrees with the shared
`mark_words_in_text` of src/utils/text_processing.py at bracket pair
`<`/`>`, for any word list. -/
theorem di_body_eq_mark (f t : List Char) (words : List (List Char)) :
    (if collectIntervals t words = [] then some (f, t)
     else some (f, (splicePieces t 0 (sortIntervals (collectIntervals t words))).flatMap
        (renderPiece ['<'] ['>'])))
    = some ((f, TextProc.mark_words_in_text t words ['<'] ['>']) :
        List Char × List Char) := by
  unfold TextProc.mark_words_in_text
  by_cases h1 : words = []
  · subst h1
    simp [show collectIntervals t ([] : List (List Char)) = [] from rfl]
  · rw [if_neg h1]
    by_cases h2 : collectIntervals t words = []
    · rw [if_pos h2, if_pos h2]
    · rw [if_neg h2, if_neg h2]

/-- C1: for a well-formed three-field annotation line, the INTERVAL-mode
ground-truth builder of src/dialect_iou.py produces the marker engine's
output with bracket pair `<`/`>` — on the example line it yields filename
`95503243.wav` and markup `哦哦你把电费望哈<啄>` — whereas the builder of
src/utils/text_processing.py delegates to `mark_words_in_text` with its
default `【】` pair, yielding `哦哦你把电费望哈【啄】` on the same line. -/
theorem claim_C1_amended :
    (∀ (line f t d : List Char), splitOnChar '\t' (pyStrip line) = [f, t, d] →
      DI.process_line_to_ground_truth line =
        some (f, TextProc.mark_words_in_text t
          ((splitOnChar ',' (TextProc.cleanDialectField d)).filter (fun w => w ≠ []))
          ['<'] ['>'])) ∧
    DI.process_line_to_ground_truth "95503243.wav\t哦哦你把电费望哈啄\t【啄】".toList
      = some ("95503243.wav".toList, "哦哦你把电费望哈<啄>".toList) ∧
    TextProc.process_line_to_ground_truth "95503243.wav\t哦哦你把电费望哈啄\t【啄】".toList false
      = ("95503243.wav".toList, "哦哦你把电费望哈【啄】".toList, []) := by
  refine ⟨?_, by decide, by decide⟩
  intro line f t d hsplit
  unfold DI.process_line_to_ground_truth
  rw [hsplit]
  exact di_body_eq_mark f t _

/-- C1 counterexample: the builder of src/utils/text_processing.py — one of
the two functions the claim is about, and the one used by main.py and
eval_w_checkpoint.py — does **not** return the claimed `<>`-marked text on
the claim's own example line (it returns `哦哦你把电费望哈【啄】`). -/
theorem claim_C1_counterexample :
    (TextProc.process_line_to_ground_truth
        "95503243.wav\t哦哦你把电费望哈啄\t【啄】".toList false).2.1
      ≠ "哦哦你把电费望哈<啄>".toList := by decide

/-- C1 witness: the general part of the amended claim applied to another
concrete annotation line. -/
theorem claim_C1_witness :
    DI.process_line_to_ground_truth "95510499.wav\t叫么斯名字\t么【斯】".toList
      = some ("95510499.wav".toList,
          TextProc.mark_words_in_text "叫么斯名字".toList
            ((splitOnChar ',' (TextProc.cleanDialectField "么【斯】".toList)).filter
              (fun w => w ≠ []))
            ['<'] ['>']) :=
  claim_C1_amended.1 "95510499.wav\t叫么斯名字\t么【斯】".toList
    "95510499.wav".toList "叫么斯名字".toList "么【斯】".toList (by decide)

theorem replaceChar_replaceChar (c₁ c₂ : Char) (h : c₂ ≠ c₁) (l : List Char) :
    replaceChar c₁ c₂ (replaceChar c₁ c₂ l) = replaceChar c₁ c₂ l := by
  unfold replaceChar
  rw [List.map_map]
  refine List.map_congr_left ?_
  intro a _
  by_cases ha : a = c₁ <;> simp [ha, h]

/-- C2: only the ground-truth argument of `calculate_word_metrics` gets the
ASCII-comma → fullwidth-comma replacement before splitting; the hypothesis
argument is split on fullwidth commas only.  Consequently the score is
invariant under the replacement in the ground-truth argument (proved here
for all inputs), but not in the hypothesis argument (see the
counterexample). -/
theorem claim_C2_amended : ∀ gt_words hyp_words : List Char,
    TextProc.calculate_word_metrics (replaceChar ',' '，' gt_words) hyp_words =
      TextProc.calculate_word_metrics gt_words hyp_words := by
  intro g h
  have hset : TextProc.gtWordSet (replaceChar ',' '，' g) = TextProc.gtWordSet g := by
    unfold TextProc.gtWordSet
    rw [replaceChar_replaceChar ',' '，' (by decide) g]
  unfold TextProc.calculate_word_metrics
  rw [hset]

/-- C2 counterexample: replacing the ASCII comma by the fullwidth comma in
the hypothesis argument changes the score (`"门子,啄"` is one unsplit token,
`"门子，啄"` is two words), so the claimed invariance in either argument is
false. -/
theorem claim_C2_counterexample :
    TextProc.calculate_word_metrics "门子".toList (replaceChar ',' '，' "门子,啄".toList) ≠
      TextProc.calculate_word_metrics "门子".toList "门子,啄".toList := by
  rw [TextProc.calculate_word_metrics_eval _ _ 1 2 1 (by decide) (by decide) (by decide),
    TextProc.calculate_word_metrics_eval _ _ 1 1 0 (by decide) (by decide) (by decide)]
  norm_num [Prod.ext_iff]

/-- C3: the two edge cases with exactly one empty side evaluate to
`(0, 0, 0)`, not the claimed `(0, 1, 0)` and `(1, 0, 0)`: when the
ground-truth set is empty but the hypothesis set is not, recall is `0`, and
symmetrically for precision; only the both-empty case gives `(1, 1, 1)`. -/
theorem claim_C3_amended :
    TextProc.calculate_word_metrics [] [] = (1, 1, 1) ∧
    TextProc.calculate_word_metrics "门子".toList [] = (0, 0, 0) ∧
    TextProc.calculate_word_metrics [] "门子".toList = (0, 0, 0) := by
  refine ⟨?_, ?_, ?_⟩
  · rw [TextProc.calculate_word_metrics_eval [] [] 0 0 0 (by decide) (by decide) (by decide)]
    norm_num
  · rw [TextProc.calculate_word_metrics_eval _ _ 1 0 0 (by decide) (by decide) (by decide)]
    norm_num
  · rw [TextProc.calculate_word_metrics_eval _ _ 0 1 0 (by decide) (by decide) (by decide)]
    norm_num

/-- C3 counterexample: `word_metrics("门子", "")` is `(0, 0, 0)`, not the
claimed `(0, 1, 0)` — the precision convention returns `0` when the
hypothesis set is empty but the ground-truth set is not. -/
theorem claim_C3_counterexample :
    TextProc.calculate_word_metrics "门子".toList [] ≠ ((0 : ℚ), (1 : ℚ), (0 : ℚ)) := by
  rw [TextProc.calculate_word_metrics_eval _ _ 1 0 0 (by decide) (by decide) (by decide)]
  norm_num [Prod.ext_iff]

/-- C4: the checkpoint parser's `rolling_values` recovery equals the amended
description: the marker is the **literal** token `rolling_recall_avg :`
(not any token of shape `rolling_*_avg :`); the forward walk starts at the
first line whose content equals the last marker line; it collects every
stripped line of full shape `rolling_<name> : <float>`, skips (without
stopping) lines that start with `rolling_` but lack the full shape, and
stops at the first stripped line not starting with `rolling_`. -/
theorem claim_C4_amended : ∀ lines : List (List Char),
    Ckpt.parse_log_file_rolling lines = Ckpt.amended_rolling_values lines := by
  intro lines
  unfold Ckpt.parse_log_file_rolling Ckpt.amended_rolling_values
  rw [find?_reverse_eq_getLast?_filter]
  cases hl : (lines.filter (fun l => containsSeq Ckpt.markerTok l)).getLast? with
  | none => rfl
  | some line => exact rollingWalk_eq _ _

/-- C4 counterexample: on a log whose only line is `rolling_iou_avg : 0.5`
the claimed procedure finds a marker of shape `rolling_*_avg :` and collects
the value, but the code finds no `rolling_recall_avg :` marker and returns
the empty mapping. -/
theorem claim_C4_counterexample :
    Ckpt.parse_log_file_rolling ["rolling_iou_avg : 0.5".toList]
      ≠ Ckpt.claim_rolling_values ["rolling_iou_avg : 0.5".toList] := by decide

/-- C5: the resumed driver, given the ordered record list: with
`last_filename = None` it scores every record (those whose audio exists)
starting from the first; with a non-empty `last_filename` occurring in the
list, it scores no record at or before the first occurrence and resumes
exactly at the record immediately after it. -/
theorem claim_C5 : ∀ (audio_exists : List Char → Bool) (records : List (List Char)),
    ([] ∉ records →
      Ckpt.scored_records audio_exists records none false = records.filter audio_exists) ∧
    (∀ (x : List Char) (pre post : List (List Char)),
      records = pre ++ x :: post → x ∉ pre → [] ∉ records →
      Ckpt.scored_records audio_exists records (some x) false = post.filter audio_exists) := by
  intro ae records
  refine ⟨scored_records_none ae records, ?_⟩
  intro x pre post hrec hx hmem
  subst hrec
  exact scored_records_resume ae pre x post hx hmem

/-- C5 witness: resuming after `b.wav` in the list `a.wav, b.wav, c.wav`
(with every audio file present) scores exactly `c.wav`. -/
theorem claim_C5_witness :
    Ckpt.scored_records (fun _ => true)
        ["a.wav".toList, "b.wav".toList, "c.wav".toList] (some "b.wav".toList) false
      = ["c.wav".toList] := by
  rw [(claim_C5 (fun _ => true) ["a.wav".toList, "b.wav".toList, "c.wav".toList]).2
    "b.wav".toList ["a.wav".toList] ["c.wav".toList] rfl (by decide) (by decide)]
  rfl

/-- C6: `QwenAudioModel.process` propagates internal exceptions (its
`try`/`except` is commented out) and returns a placeholder-prefixed string
— not the transcription — when the audio file is missing;
`ParaformerLlmApiModel.process` is total (never raises) and, on an LLM-API
failure with `llm_input_source = 'gt'`, returns the transcription unchanged
(the failure placeholder is discarded by the final marking step whenever it
does not occur in the transcription); with `llm_input_source = 'paraformer'`
a failed run yields placeholder-derived text, not the transcription. -/
theorem claim_C6_amended :
    (∀ (env : Qwen.Env) (t : List Char), env.audio_exists = false →
      Qwen.process env t = .ok ("[错误: 音频文件未找到] ".toList ++ t)) ∧
    (∀ (env : Para.Env) (e t : List Char), env.input_source_paraformer = false →
      env.llm_outcome = .requestFail e →
      (∀ w ∈ ((Qwen.re_split_commas
          (Para.call_llm_api (Para.LlmOutcome.requestFail e))).map pyStrip).filter
            (fun w => w ≠ []),
        containsSeq w t = false) →
      Para.process env t = t) ∧
    Para.process ⟨true, true, .error "识别异常".toList, .requestFail "超时".toList⟩ "哦哦".toList
      ≠ "哦哦".toList := by
  refine ⟨?_, ?_, by decide⟩
  · intro env t h
    simp [Qwen.process, h]
  · intro env e t h1 h2 hwords
    have hne : Para.call_llm_api (Para.LlmOutcome.requestFail e) ≠ [] := by
      simp [Para.call_llm_api]
    unfold Para.process
    rw [h1, h2]
    simp only [Bool.false_eq_true, if_false, if_neg hne]
    exact mark_words_in_text_no_match t _ _ _ hwords

/-- C6 counterexample: with the audio present but `librosa.load` failing,
`QwenAudioModel.process` surfaces the exception (the result is an error, not
any string — in particular not the transcription), so the claimed
never-raise contract is false. -/
theorem claim_C6_counterexample :
    Qwen.process ⟨true, Except.error "librosa 加载失败".toList, Except.ok [], Except.ok []⟩
        "哦哦".toList
      = Except.error "librosa 加载失败".toList ∧
    Qwen.process ⟨true, Except.error "librosa 加载失败".toList, Except.ok [], Except.ok []⟩
        "哦哦".toList
      ≠ Except.ok "哦哦".toList := by
  have h1 : Qwen.process
      ⟨true, Except.error "librosa 加载失败".toList, Except.ok [], Except.ok []⟩
      "哦哦".toList = Except.error "librosa 加载失败".toList := rfl
  exact ⟨h1, by rw [h1]; simp⟩

/-- C6 witness: the amended claim applied at concrete inputs — a missing
audio file gives the prefixed transcription, and a `gt`-sourced LLM request
failure gives the transcription back unchanged. -/
theorem claim_C6_witness :
    Qwen.process ⟨false, Except.ok (), Except.ok [], Except.ok []⟩ "叫么斯名字".toList
      = Except.ok ("[错误: 音频文件未找到] ".toList ++ "叫么斯名字".toList) ∧
    Para.process ⟨true, false, Except.ok [], .requestFail "超时".toList⟩ "叫么斯名字".toList
      = "叫么斯名字".toList :=
  ⟨claim_C6_amended.1 _ _ rfl,
   claim_C6_amended.2.1 _ "超时".toList _ rfl rfl (by decide)⟩

/-- C7: `calculate_text_iou` always lies in `[0, 1]`; it is exactly `1` when
the union of the two marked index sets is empty, and otherwise equals the
intersection size divided by the union size. -/
theorem claim_C7 : ∀ gt_text hyp_text : List Char,
    (0 ≤ TextProc.calculate_text_iou gt_text hyp_text ∧
      TextProc.calculate_text_iou gt_text hyp_text ≤ 1) ∧
    (TextProc.extract_char_indices gt_text ∪ TextProc.extract_char_indices hyp_text = ∅ →
      TextProc.calculate_text_iou gt_text hyp_text = 1) ∧
    (TextProc.extract_char_indices gt_text ∪ TextProc.extract_char_indices hyp_text ≠ ∅ →
      TextProc.calculate_text_iou gt_text hyp_text =
        ((TextProc.extract_char_indices gt_text ∩
            TextProc.extract_char_indices hyp_text).card : ℚ) /
          ((TextProc.extract_char_indices gt_text ∪
            TextProc.extract_char_indices hyp_text).card : ℚ)) := by
  intro gt hyp
  have hsub : (TextProc.extract_char_indices gt ∩ TextProc.extract_char_indices hyp).card ≤
      (TextProc.extract_char_indices gt ∪ TextProc.extract_char_indices hyp).card :=
    Finset.card_le_card Finset.inter_subset_union
  refine ⟨?_, ?_, ?_⟩
  · unfold TextProc.calculate_text_iou
    by_cases hu : (TextProc.extract_char_indices gt ∪
        TextProc.extract_char_indices hyp).card = 0
    · simp [hu]
    · have hupos : (0 : ℚ) < ((TextProc.extract_char_indices gt ∪
          TextProc.extract_char_indices hyp).card : ℚ) := by
        exact_mod_cast Nat.pos_of_ne_zero hu
      simp only [hu, if_false]
      exact ⟨div_nonneg (by positivity) (le_of_lt hupos),
        (div_le_one hupos).mpr (by exact_mod_cast hsub)⟩
  · intro h
    unfold TextProc.calculate_text_iou
    simp [h]
  · intro h
    have hcard : (TextProc.extract_char_indices gt ∪
        TextProc.extract_char_indices hyp).card ≠ 0 := by
      simpa [Finset.card_eq_zero] using h
    unfold TextProc.calculate_text_iou
    simp [hcard]

/-- C7 witness: the theorem applied at concrete markups — two unmarked texts
give IoU `1`, and two marked texts with nonempty union give the card
ratio. -/
theorem claim_C7_witness :
    TextProc.calculate_text_iou "哦哦".toList "哦哦".toList = 1 ∧
    TextProc.calculate_text_iou "<哦>哦".toList "哦哦".toList =
      ((TextProc.extract_char_indices "<哦>哦".toList ∩
          TextProc.extract_char_indices "哦哦".toList).card : ℚ) /
        ((TextProc.extract_char_indices "<哦>哦".toList ∪
          TextProc.extract_char_indices "哦哦".toList).card : ℚ) :=
  ⟨(claim_C7 "哦哦".toList "哦哦".toList).2.1 (by decide),
   (claim_C7 "<哦>哦".toList "哦哦".toList).2.2 (by decide)⟩

/-- C8: a line that does not split into exactly three tab-separated fields
makes `process_line_to_ground_truth` return the sentinel `("", "", "")` in
either mode — no exception is raised (the function is total), so the sweep
continues with the next line. -/
theorem claim_C8 : ∀ (line : List Char) (use_word_comparison : Bool),
    (splitOnChar '\t' (pyStrip line)).length ≠ 3 →
    TextProc.process_line_to_ground_truth line use_word_comparison = ([], [], []) := by
  intro line mode h
  unfold TextProc.process_line_to_ground_truth
  rcases hs : splitOnChar '\t' (pyStrip line) with _ | ⟨a, _ | ⟨b, _ | ⟨c, _ | ⟨d, rest⟩⟩⟩⟩ <;>
    simp_all

/-- C8 witness: a two-field line yields the sentinel. -/
theorem claim_C8_witness :
    TextProc.process_line_to_ground_truth "95503243.wav\t哦哦你把电费望哈啄".toList false
      = ([], [], []) :=
  claim_C8 "95503243.wav\t哦哦你把电费望哈啄".toList false (by decide)

/-- C9: the marker engine is the identity on the text when given an empty
word list, and also when none of the supplied words occurs as a substring of
the text. -/
theorem claim_C9 : ∀ (text left_bracket right_bracket : List Char),
    TextProc.mark_words_in_text text [] left_bracket right_bracket = text ∧
    ∀ words : List (List Char), (∀ w ∈ words, containsSeq w text = false) →
      TextProc.mark_words_in_text text words left_bracket right_bracket = text := by
  intro text l r
  exact ⟨by simp [TextProc.mark_words_in_text],
    fun words h => mark_words_in_text_no_match text words l r h⟩

/-- C9 witness: neither `门子` nor `汾波` occurs in `叫么斯名字`, so marking
leaves the text unchanged. -/
theorem claim_C9_witness :
    TextProc.mark_words_in_text "叫么斯名字".toList ["门子".toList, "汾波".toList] ['<'] ['>']
      = "叫么斯名字".toList :=
  (claim_C9 "叫么斯名字".toList ['<'] ['>']).2 ["门子".toList, "汾波".toList] (by decide)

theorem sortIntervals_bounds (ivs : List (ℕ × ℕ)) (hb : ∀ p ∈ ivs, p.1 ≤ p.2) :
    ∀ p ∈ sortIntervals ivs, p.1 ≤ p.2 :=
  fun p hp => hb p ((List.perm_insertionSort ivLe ivs).subset hp)

/-- C10: whenever the collected occurrence intervals are pairwise disjoint,
deleting every inserted bracket from the pieces assembled by
`mark_words_in_text` yields the original text — marking never drops,
duplicates or reorders an original character.  The second conjunct ties the
pieces to the rendered output: for every bracket pair the marker's output is
exactly the rendering of those pieces. -/
theorem claim_C10 : ∀ (text : List Char) (words : List (List Char)),
    (collectIntervals text words).Pairwise ivDisj →
    eraseInserted (TextProc.mark_pieces text words) = text ∧
    ∀ left right : List Char,
      TextProc.mark_words_in_text text words left right =
        (TextProc.mark_pieces text words).flatMap (renderPiece left right) := by
  intro text words hd
  refine ⟨?_, fun l r => mark_words_in_text_eq_render text words l r⟩
  unfold TextProc.mark_pieces
  by_cases h1 : words = []
  · simp [h1, eraseInserted]
  · simp only [h1, if_false]
    by_cases h2 : collectIntervals text words = []
    · simp [h2, eraseInserted]
    · simp only [h2, if_false]
      have hb : ∀ p ∈ collectIntervals text words, p.1 ≤ p.2 :=
        fun p hp => collectIntervals_bounds text words p hp
      have := eraseInserted_splicePieces text (sortIntervals (collectIntervals text words)) 0
        (sortIntervals_bounds _ hb) (sortIntervals_chain _ hb hd)
        (fun p _ => Nat.zero_le _)
      simpa using this

/-- C10 witness: on the example sentence with the disjoint words `望哈` and
`啄`, erasing the inserted brackets restores the sentence. -/
theorem claim_C10_witness :
    eraseInserted (TextProc.mark_pieces "哦哦你把电费望哈啄".toList
        [['啄'], "望哈".toList])
      = "哦哦你把电费望哈啄".toList :=
  (claim_C10 "哦哦你把电费望哈啄".toList [['啄'], "望哈".toList] (by decide)).1
